import Mathlib

/-!
Verification of the passrep core (src/core/user.go and related files) against its
natural-language specification.  Strings are modelled as lists of byte values
(`List Nat`, each element < 256 where it matters); Go's external crypto libraries
(crypto/aes, crypto/cipher GCM, crypto/ecdsa, crypto/elliptic, crypto/sha512,
encoding/asn1) are modelled by abstract structures whose fields record exactly the
documented behaviour the repository relies on.  encoding/base64 StdEncoding is
modelled concretely.
-/

namespace Passrep

/-! ## encoding/base64 StdEncoding -/

/-- Index into the standard base64 alphabet, as the ASCII code of the digit.
Models the `StdEncoding` alphabet of Go's encoding/base64. -/
def b64EncChar (i : Nat) : Nat :=
  if i < 26 then 65 + i
  else if i < 52 then 97 + (i - 26)
  else if i < 62 then 48 + (i - 52)
  else if i = 62 then 43
  else 47

/-- Inverse of `b64EncChar`: ASCII code back to the 6-bit value, `none` for a
character outside the standard alphabet (this includes the padding byte 61). -/
def b64DecChar (c : Nat) : Option Nat :=
  if 65 ≤ c ∧ c ≤ 90 then some (c - 65)
  else if 97 ≤ c ∧ c ≤ 122 then some (26 + (c - 97))
  else if 48 ≤ c ∧ c ≤ 57 then some (52 + (c - 48))
  else if c = 43 then some 62
  else if c = 47 then some 63
  else none

/-- Go's `base64.StdEncoding.EncodeToString`: bytes to base64 digit codes,
three input bytes per four output characters, with `=` (61) padding. -/
def base64Encode : List Nat → List Nat
  | [] => []
  | [a] => [b64EncChar (a / 4), b64EncChar (a % 4 * 16), 61, 61]
  | [a, b] => [b64EncChar (a / 4), b64EncChar (a % 4 * 16 + b / 16),
               b64EncChar (b % 16 * 4), 61]
  | a :: b :: c :: rest =>
      b64EncChar (a / 4) :: b64EncChar (a % 4 * 16 + b / 16) ::
      b64EncChar (b % 16 * 4 + c / 64) :: b64EncChar (c % 64) :: base64Encode rest

/-- Go's `base64.StdEncoding.DecodeString`: base64 digit codes back to bytes;
`none` models the `CorruptInputError` returned on input whose length is not a
multiple of four, on characters outside the alphabet, and on misplaced padding. -/
def base64Decode : List Nat → Option (List Nat)
  | [] => some []
  | c0 :: c1 :: c2 :: c3 :: rest =>
    match b64DecChar c0, b64DecChar c1 with
    | some s0, some s1 =>
      if c2 = 61 then
        if c3 = 61 ∧ rest = [] then some [s0 * 4 + s1 / 16] else none
      else
        match b64DecChar c2 with
        | some s2 =>
          if c3 = 61 then
            if rest = [] then some [s0 * 4 + s1 / 16, s1 % 16 * 16 + s2 / 4] else none
          else
            match b64DecChar c3 with
            | some s3 =>
              match base64Decode rest with
              | some bs =>
                  some ((s0 * 4 + s1 / 16) :: (s1 % 16 * 16 + s2 / 4) ::
                        (s2 % 4 * 64 + s3) :: bs)
              | none => none
            | none => none
        | none => none
    | _, _ => none
  | _ => none

/-! ## External crypto primitives

`GCMImpl` models the `cipher.AEAD` returned by `cipher.NewGCM(aes.NewCipher(key))`:
`enc`/`dec` are the CTR keystream transform (length-preserving, inverse pair) and
`tagOf` the GHASH authentication tag (16 bytes) over ciphertext and additional data.
`Seal` and `Open` below reproduce the documented append-to-dst behaviour of
Go's `cipher.AEAD.Seal`/`Open`, which is what the repository's `Encrypt`/`Decrypt`
actually invoke. -/

structure GCMImpl where
  enc : List Nat → List Nat → List Nat → List Nat
  dec : List Nat → List Nat → List Nat → List Nat
  tagOf : List Nat → List Nat → List Nat → List Nat → List Nat
  enc_length : ∀ k n p, (enc k n p).length = p.length
  dec_length : ∀ k n c, (dec k n c).length = c.length
  tag_length : ∀ k n c a, (tagOf k n c a).length = 16
  dec_enc : ∀ k n p, dec k n (enc k n p) = p
  enc_lt : ∀ k n p, (∀ b ∈ p, b < 256) → ∀ b ∈ enc k n p, b < 256
  tag_lt : ∀ k n c a b, b ∈ tagOf k n c a → b < 256

/-- Go's `cipher.AEAD.Seal(dst, nonce, plaintext, data)`: encrypts and authenticates
`plaintext` and appends ciphertext followed by the 16-byte tag to `dst`. -/
def GCMImpl.Seal (g : GCMImpl) (key dst nonce plaintext data : List Nat) : List Nat :=
  dst ++ g.enc key nonce plaintext ++ g.tagOf key nonce (g.enc key nonce plaintext) data

/-- Go's `cipher.AEAD.Open(dst, nonce, ciphertext, data)`: splits the trailing
16-byte tag off `ciphertext`, recomputes it, and on a match appends the decrypted
plaintext to `dst`; `none` models the authentication error. -/
def GCMImpl.Open (g : GCMImpl) (key dst nonce ciphertext data : List Nat) :
    Option (List Nat) :=
  if ciphertext.length < 16 then none
  else
    let body := ciphertext.take (ciphertext.length - 16)
    let tg := ciphertext.drop (ciphertext.length - 16)
    if g.tagOf key nonce body data = tg then some (dst ++ g.dec key nonce body)
    else none

/-- Abstract model of the remaining external primitives used by user.go:
SHA-512 (`crypto/sha512`, 64-byte digests), the P-521 group operations
(`crypto/elliptic`: `ScalarBaseMult`/`ScalarMult`, commuting on base-point
multiples), ECDSA sign/verify over P-521 (`crypto/ecdsa`, with the signing
randomness an explicit argument, and verification accepting honest signatures),
and the DER encodings produced and parsed through `encoding/asn1` for the
`Signature {R, S}` sequence and for the curve-free `{X, Y}` public-key sequence
(the `PublicSigningKeyNoCurve`/`SigningKey` struct marshalled by
`updatePublicKey` and unmarshalled by `Verify`; both are plain `*big.Int`
structs, which asn1 supports: `Unmarshal` returns the decoded value together
with the bytes trailing the first element, and round-trips with `Marshal`).
The unmarshal into `ecdsa.PublicKey` performed by `makeSharedSecret` is NOT
this codec — see `asn1UnmarshalECDSAPubKey`. -/
structure CryptoPrim where
  sha512 : List Nat → List Nat
  sha512_length : ∀ bs, (sha512 bs).length = 64
  scalarBase : Nat → Nat × Nat
  scalarMult : Nat × Nat → Nat → Nat × Nat
  scalarMult_base_comm : ∀ a b, scalarMult (scalarBase a) b = scalarMult (scalarBase b) a
  ecdsaSign : Nat → List Nat → Nat → Nat × Nat
  ecdsaVerify : Nat × Nat → List Nat → Nat × Nat → Bool
  ecdsaVerify_sign : ∀ d h k, ecdsaVerify (scalarBase d) h (ecdsaSign d h k) = true
  asn1EncSig : Nat × Nat → List Nat
  asn1DecSig : List Nat → Option ((Nat × Nat) × List Nat)
  asn1DecSig_enc : ∀ s rest, asn1DecSig (asn1EncSig s ++ rest) = some (s, rest)
  asn1EncPub : Nat × Nat → List Nat
  asn1DecPub : List Nat → Option ((Nat × Nat) × List Nat)
  asn1DecPub_enc : ∀ p rest, asn1DecPub (asn1EncPub p ++ rest) = some (p, rest)

/-! ## Data model -/

/-- The single error kind of core/error.go (`*core.Error`); only the message is
semantically relevant to the claims (file/line/user are diagnostics). -/
structure CoreError where
  msg : String
deriving DecidableEq, Repr

/-- Modelled from the spec: the final `Keys` structure (the current core/keys.go
is not among the provided sources — an older variant appears among the unnamed
historical files, and user.go only calls it).  `CryptoKey` is the 32-byte PBKDF2-derived
symmetric key and `D` the ECDSA private scalar (`SigningKey.D`); per the spec the
public signing point is the curve point corresponding to `D`, i.e.
`scalarBase D`, which theorems state as a hypothesis where the code reads the
stored public key. -/
structure Keys where
  CryptoKey : List Nat
  D : Nat
deriving DecidableEq, Repr

/-- The `User` record of user.go restricted to the fields the claims exercise:
the base64-encoded `PublicKey` string and the session-scoped private `keys`. -/
structure User where
  PublicKey : List Nat
  keys : Option Keys
deriving DecidableEq, Repr

/-- The `EntryView` record of entry.go restricted to the fields `Can` reads; the
`authority` field stands for the user that `getAuthority()` resolves from
`AuthorityId` in the database. -/
structure EntryView where
  Permissions : List Nat
  authority : User
deriving DecidableEq, Repr

/-- `ValidPermissions = "rwd"` as byte codes. -/
def ValidPermissions : List Nat := [114, 119, 100]

/-! ## user.go functions -/

/-- `User.getEncryptionKey`: the session symmetric key, if a session is active. -/
def User.getEncryptionKey (u : User) : Option (List Nat) :=
  match u.keys with
  | none => none
  | some k => some k.CryptoKey

/-- `User.makeGCM`: `aes.NewCipher` accepts only 16-, 24- or 32-byte keys
(returning `KeySizeError` otherwise); `cipher.NewGCM` then cannot fail.  The
returned value stands for the GCM instance keyed with `key`. -/
def makeGCM (key : List Nat) : Except CoreError (List Nat) :=
  if key.length = 16 ∨ key.length = 24 ∨ key.length = 32 then .ok key
  else .error ⟨"crypto aes invalid key size"⟩

/-- `User.Encrypt`: seals `data` with the session key and a fresh 12-byte random
nonce (passed explicitly here as the randomness), base64-encoding
`nonce ++ gcm.Seal(data, nonce, data, nil)`.  Note the Go code passes the
plaintext slice `data` as the destination of `Seal`. -/
def User.Encrypt (g : GCMImpl) (u : User) (nonce data : List Nat) :
    Except CoreError (List Nat) :=
  match u.getEncryptionKey with
  | none => .error ⟨"Private key unavailable"⟩
  | some key =>
    match makeGCM key with
    | .error e => .error e
    | .ok gkey => .ok (base64Encode (nonce ++ g.Seal gkey data nonce data []))

/-- `User.Decrypt`: base64-decodes, checks the payload holds at least the
12-byte nonce, and calls `gcm.Open(raw[12:], raw[:12], raw[12:], nil)` — again
with the ciphertext slice as destination. -/
def User.Decrypt (g : GCMImpl) (u : User) (encrypted : List Nat) :
    Except CoreError (List Nat) :=
  match base64Decode encrypted with
  | none => .error ⟨"illegal base64 data"⟩
  | some raw =>
    match u.getEncryptionKey with
    | none => .error ⟨"Private key unavailable"⟩
    | some key =>
      match makeGCM key with
      | .error e => .error e
      | .ok gkey =>
        if raw.length < 12 then .error ⟨"Data too short"⟩
        else
          match g.Open gkey (raw.drop 12) (raw.take 12) (raw.drop 12) [] with
          | none => .error ⟨"cipher message authentication failed"⟩
          | some data => .ok data

/-- `big.Int.Bytes`: minimal big-endian byte representation (empty for zero). -/
def natToBytesBE (n : Nat) : List Nat :=
  if n = 0 then [] else natToBytesBE (n / 256) ++ [n % 256]
decreasing_by exact Nat.div_lt_self (Nat.pos_of_ne_zero (by assumption)) (by omega)

/-- Go's `asn1.Unmarshal(rawPubKey, &pubKey)` with `pubKey : ecdsa.PublicKey`,
as called by `makeSharedSecret` (user.go lines 237-238): `ecdsa.PublicKey`
embeds the `elliptic.Curve` interface, a Go type `encoding/asn1` does not
support, so parsing the first struct field returns a `StructuralError` on every
input.  (The repository works around the same limitation in the marshal
direction — `updatePublicKey` marshals `*PublicSigningKeyNoCurve()` — and
`Verify` correctly unmarshals into the curve-free `SigningKey` struct, but
`makeSharedSecret` does not.) -/
def asn1UnmarshalECDSAPubKey (_rawPubKey : List Nat) :
    Option ((Nat × Nat) × List Nat) :=
  none

/-- `User.makeSharedSecret`: decodes the other user's stored public key,
ASN.1-unmarshals it into `ecdsa.PublicKey` — which fails on every input, see
`asn1UnmarshalECDSAPubKey` — and would then multiply the point by this user's
private scalar, reject the degenerate point, and stretch the x-coordinate
through 10,000 rounds of SHA-512; that tail of the function is unreachable.
(When `keys` is nil the Go code would dereference a nil pointer; no claim
exercises that path and it is mapped to an error here.) -/
def User.makeSharedSecret (cp : CryptoPrim) (u other : User) :
    Except CoreError (List Nat) :=
  match base64Decode other.PublicKey with
  | none => .error ⟨"illegal base64 data"⟩
  | some rawPubKey =>
    match asn1UnmarshalECDSAPubKey rawPubKey with
    | none => .error ⟨"asn1 structural error"⟩
    | some (pubKey, _) =>
      match u.keys with
      | none => .error ⟨"keys unavailable"⟩
      | some k =>
        let p := cp.scalarMult pubKey k.D
        if p.1 = 0 ∧ p.2 = 0 then .error ⟨"Invalid point"⟩
        else .ok (cp.sha512^[10000] (natToBytesBE p.1))

/-- `User.EncryptShared`: seals `data` (with `sign` as additional authenticated
data) under the pairwise shared secret, returning the base64 payload and the
base64 of `sign`. -/
def User.EncryptShared (g : GCMImpl) (cp : CryptoPrim) (u other : User)
    (nonce data sign : List Nat) : Except CoreError (List Nat × List Nat) :=
  match u.makeSharedSecret cp other with
  | .error e => .error e
  | .ok key =>
    match makeGCM key with
    | .error e => .error e
    | .ok gkey =>
      .ok (base64Encode (nonce ++ g.Seal gkey data nonce data sign),
           base64Encode sign)

/-- `User.Verify`: base64-decodes the blob and the stored public key, ASN.1-parses
the key and then the leading `Signature` element (whose trailing bytes are the
original data), and checks the ECDSA signature over the SHA-512 digest.  Returns
`(valid, data, err)` as the Go triple does. -/
def User.Verify (cp : CryptoPrim) (u : User) (signed : List Nat) :
    Bool × List Nat × Option CoreError :=
  match base64Decode signed with
  | none => (false, [], some ⟨"illegal base64 data"⟩)
  | some raw =>
    match base64Decode u.PublicKey with
    | none => (false, [], some ⟨"illegal base64 data"⟩)
    | some rawKey =>
      match cp.asn1DecPub rawKey with
      | none => (false, [], some ⟨"asn1 structural error"⟩)
      | some (key, _) =>
        match cp.asn1DecSig raw with
        | none => (false, [], some ⟨"asn1 structural error"⟩)
        | some (sig, remaining) =>
          (cp.ecdsaVerify key (cp.sha512 remaining) sig, remaining, none)

/-- `User.Sign`: signs the SHA-512 digest of `data` with the private scalar
(randomness `k` explicit) and base64-encodes the DER signature followed by the
data itself.  (`ecdsa.Sign` fails only on randomness-source failure, which no
claim exercises; the nil-keys dereference is likewise mapped to an error.) -/
def User.Sign (cp : CryptoPrim) (u : User) (k : Nat) (data : List Nat) :
    Except CoreError (List Nat) :=
  match u.keys with
  | none => .error ⟨"keys unavailable"⟩
  | some keys =>
    .ok (base64Encode (cp.asn1EncSig (cp.ecdsaSign keys.D (cp.sha512 data) k) ++ data))

/-- The inner scan of `User.Can` over the query characters: the first character
outside `ValidPermissions` forces false, the first character contained in the
granted string forces true. -/
def canScan (permissions : List Nat) : List Nat → Bool
  | [] => false
  | p :: rest =>
    if p ∉ ValidPermissions then false
    else if p ∈ permissions then true
    else canScan permissions rest

/-- `User.Can`: verifies the entry's `Permissions` blob against the authority's
public key, rejects granted strings containing characters outside `"rwd"`,
special-cases the query `"*"` ([42]), and otherwise scans the query.  The
receiver plays no role in the Go body; it is omitted here. -/
def Can (cp : CryptoPrim) (query : List Nat) (entry : EntryView) : Bool :=
  match User.Verify cp entry.authority entry.Permissions with
  | (ok, raw, err) =>
    if ¬ok ∨ err.isSome then false
    else
      let permissions := raw
      if permissions.any (fun p => p ∉ ValidPermissions) then false
      else if query = [42] ∧ permissions.length > 0 then true
      else canScan permissions query

/-! ## Concrete instances of the abstract primitives

Used to evaluate the embedded code on closed inputs; any instance satisfying the
documented properties works for that purpose. -/

/-- A degenerate but property-satisfying AEAD core: identity keystream and a
constant tag. -/
def toyGCM : GCMImpl where
  enc := fun _ _ p => p
  dec := fun _ _ c => c
  tagOf := fun _ _ _ _ => List.replicate 16 0
  enc_length := fun _ _ _ => rfl
  dec_length := fun _ _ _ => rfl
  tag_length := fun _ _ _ _ => by simp
  dec_enc := fun _ _ _ => rfl
  enc_lt := fun _ _ _ h => h
  tag_lt := fun _ _ _ _ b hb => by
    have := List.eq_of_mem_replicate hb
    omega

/-- A degenerate but property-satisfying signature/curve/hash/ASN.1 bundle:
points are pairs, the base point map is the diagonal, scalar multiplication is
componentwise, signatures record the scalar and digest length, and the DER
codecs are two-element prefixes. -/
def toyCrypto : CryptoPrim where
  sha512 := fun _ => List.replicate 64 0
  sha512_length := fun _ => by simp
  scalarBase := fun a => (a, a)
  scalarMult := fun p k => (p.1 * k, p.2 * k)
  scalarMult_base_comm := fun a b => by simp [Nat.mul_comm]
  ecdsaSign := fun d h _ => (d, h.length)
  ecdsaVerify := fun p h s => decide (p.1 = s.1 ∧ p.2 = s.1 ∧ s.2 = h.length)
  ecdsaVerify_sign := fun d h k => by simp
  asn1EncSig := fun s => [s.1, s.2]
  asn1DecSig := fun l =>
    match l with
    | a :: b :: rest => some ((a, b), rest)
    | _ => none
  asn1DecSig_enc := fun s rest => rfl
  asn1EncPub := fun p => [p.1, p.2]
  asn1DecPub := fun l =>
    match l with
    | a :: b :: rest => some ((a, b), rest)
    | _ => none
  asn1DecPub_enc := fun p rest => rfl

/-! ## Concrete demonstration values -/

/-- A 32-byte session symmetric key. -/
def demoKey32 : List Nat := List.replicate 32 0

/-- A 12-byte GCM nonce. -/
def demoNonce : List Nat := List.range 12

/-- A user with private scalar 2 whose stored `PublicKey` encodes the matching
curve point, in the toy primitives. -/
def demoUserA : User :=
  ⟨base64Encode (toyCrypto.asn1EncPub (toyCrypto.scalarBase 2)), some ⟨demoKey32, 2⟩⟩

/-- A user with private scalar 3 whose stored `PublicKey` encodes the matching
curve point, in the toy primitives. -/
def demoUserB : User :=
  ⟨base64Encode (toyCrypto.asn1EncPub (toyCrypto.scalarBase 3)), some ⟨demoKey32, 3⟩⟩

/-- An entry whose `Permissions` blob verifies under `demoUserB` and grants
"r" ([114]): the payload is the toy DER signature [3, 64] followed by the
granted string. -/
def demoEntryR : EntryView := ⟨base64Encode [3, 64, 114], demoUserB⟩

/-- An entry whose verifying blob grants "x" ([120]), a character outside the
permission alphabet. -/
def demoEntryX : EntryView := ⟨base64Encode [3, 64, 120], demoUserB⟩

/-- An entry whose verifying blob grants the empty string. -/
def demoEntryEmpty : EntryView := ⟨base64Encode [3, 64], demoUserB⟩

/-! ## ChangeQueue and RekeyCoordinator (spec-modelled)

The ChangeQueue and the password-change migration are described by the spec
(sections 4.4 and 4.5) and by src/OUTLINE.md, but their code is not among the
provided sources; the definitions below are modelled from the spec. -/

/-- Modelled from the spec: a pending change envelope of the ChangeQueue
(spec section 4.4; the component's code is missing from the sources, only the
design outline sketches it).  `fields` carries the changed field names with
their new values; ciphertext and sender assertion are abstracted away since the
dedup/merge claim is about the field sets. -/
structure Envelope where
  entryId : Nat
  recipientUserId : Nat
  fields : List (String × Nat)
deriving DecidableEq, Repr

/-- Association-list lookup by field name, first match winning. -/
def lookupField (f : String) : List (String × Nat) → Option Nat
  | [] => none
  | (k, v) :: rest => if k = f then some v else lookupField f rest

/-- Union of two field sets, entries of `newer` winning over `older`. -/
def mergeFields (newer older : List (String × Nat)) : List (String × Nat) :=
  newer ++ older.filter (fun kv => (lookupField kv.1 newer).isNone)

/-- Whether an envelope is pending for the given (entryId, recipientUserId) key. -/
def sameKey (eid rid : Nat) (e : Envelope) : Bool :=
  decide (e.entryId = eid ∧ e.recipientUserId = rid)

/-- Modelled from the spec: enqueue with dedup/merge — a pending envelope for the
same (entryId, recipientUserId) key is replaced, the replacement's field set
being the union of all fields changed since the last replay (newest write
winning); otherwise the envelope is appended to the mailbox. -/
def enqueue (env : Envelope) (mailbox : List Envelope) : List Envelope :=
  if mailbox.any (sameKey env.entryId env.recipientUserId) then
    mailbox.map (fun e =>
      if sameKey env.entryId env.recipientUserId e then
        { entryId := env.entryId, recipientUserId := env.recipientUserId,
          fields := mergeFields env.fields e.fields }
      else e)
  else mailbox ++ [env]

/-- Modelled from the spec: applying one envelope's field updates to a view,
here a map from field name to value. -/
def applyEnvelope (env : Envelope) (view : String → Option Nat) :
    String → Option Nat :=
  fun f =>
    match lookupField f env.fields with
    | some v => some v
    | none => view f

/-- Modelled from the spec: replay drains the recipient's pending envelopes in
order, applying each to the view, and removes them from the mailbox. -/
def replay (rid : Nat) (mailbox : List Envelope) (view : String → Option Nat) :
    (String → Option Nat) × List Envelope :=
  ((mailbox.filter (fun e => e.recipientUserId = rid)).foldl
      (fun v e => applyEnvelope e v) view,
   mailbox.filter (fun e => ¬ e.recipientUserId = rid))

/-- Modelled from the spec: symbolic authenticated ciphertext for the
RekeyCoordinator (spec section 4.5; the migration code is missing from the
sources).  A ciphertext records the key it was produced under; decryption
succeeds only under that key. -/
structure SymCiphertext where
  key : Nat
  plain : Nat
deriving DecidableEq, Repr

/-- Symbolic encryption. -/
def symEncrypt (k p : Nat) : SymCiphertext := ⟨k, p⟩

/-- Symbolic decryption: fails under any key other than the encrypting one. -/
def symDecrypt (k : Nat) (c : SymCiphertext) : Except CoreError Nat :=
  if c.key = k then .ok c.plain else .error ⟨"decryption failed"⟩

/-- Modelled from the spec: migrate one record — decrypt with the cached key,
re-encrypt under the new one. -/
def migrateRecord (oldKey newKey : Nat) (c : SymCiphertext) :
    Except CoreError SymCiphertext :=
  match symDecrypt oldKey c with
  | .error e => .error e
  | .ok p => .ok (symEncrypt newKey p)

/-- Modelled from the spec: stage the re-encryption of every affected record,
stopping at the first failure. -/
def migrateAll (oldKey newKey : Nat) : List SymCiphertext →
    Except CoreError (List SymCiphertext)
  | [] => .ok []
  | c :: rest =>
    match migrateRecord oldKey newKey c with
    | .error e => .error e
    | .ok c2 =>
      match migrateAll oldKey newKey rest with
      | .error e => .error e
      | .ok rest2 => .ok (c2 :: rest2)

/-- Modelled from the spec: the all-or-nothing password-change migration — swap
in the staged records only when every record succeeded; on any failure roll back
to the original state and report failure. -/
def rekey (oldKey newKey : Nat) (records : List SymCiphertext) :
    List SymCiphertext × Bool :=
  match migrateAll oldKey newKey records with
  | .ok staged => (staged, true)
  | .error _ => (records, false)

/-! ## Theorems -/

/-- Decoding a standard-alphabet digit recovers its 6-bit value. -/
theorem b64DecChar_encChar (i : Nat) (h : i < 64) : b64DecChar (b64EncChar i) = some i := by
  interval_cases i <;> rfl

/-- No 6-bit value encodes to the padding byte. -/
theorem b64EncChar_ne_pad (i : Nat) (h : i < 64) : b64EncChar i ≠ 61 := by
  interval_cases i <;> simp [b64EncChar]

/-- `base64Decode` inverts `base64Encode` on byte lists, as Go's
`DecodeString (EncodeToString bs)` does. -/
theorem base64Decode_encode : ∀ bs : List Nat, (∀ b ∈ bs, b < 256) →
    base64Decode (base64Encode bs) = some bs
  | [], _ => rfl
  | [a], h => by
    have ha : a < 256 := h a (by simp)
    have h0 : a / 4 < 64 := by omega
    have h1 : a % 4 * 16 < 64 := by omega
    simp [base64Encode, base64Decode, b64DecChar_encChar _ h0, b64DecChar_encChar _ h1]
    omega
  | [a, b], h => by
    have ha : a < 256 := h a (by simp)
    have hb : b < 256 := h b (by simp)
    have h0 : a / 4 < 64 := by omega
    have h1 : a % 4 * 16 + b / 16 < 64 := by omega
    have h2 : b % 16 * 4 < 64 := by omega
    simp [base64Encode, base64Decode, b64DecChar_encChar _ h0, b64DecChar_encChar _ h1,
      b64DecChar_encChar _ h2, b64EncChar_ne_pad _ h2]
    omega
  | a :: b :: c :: rest, h => by
    have ha : a < 256 := h a (by simp)
    have hb : b < 256 := h b (by simp)
    have hc : c < 256 := h c (by simp)
    have h0 : a / 4 < 64 := by omega
    have h1 : a % 4 * 16 + b / 16 < 64 := by omega
    have h2 : b % 16 * 4 + c / 64 < 64 := by omega
    have h3 : c % 64 < 64 := by omega
    have ih := base64Decode_encode rest (fun x hx => h x (by simp [hx]))
    simp [base64Encode, base64Decode, b64DecChar_encChar _ h0, b64DecChar_encChar _ h1,
      b64DecChar_encChar _ h2, b64DecChar_encChar _ h3, b64EncChar_ne_pad _ h2,
      b64EncChar_ne_pad _ h3, ih]
    omega

/-! ### Encrypt/Decrypt plumbing -/

/-- With a session key of a size `aes.NewCipher` accepts, `Encrypt` returns the
base64 encoding of the nonce followed by `gcm.Seal(data, nonce, data, nil)`. -/
theorem encrypt_eq (g : GCMImpl) (u : User) (k : Keys) (nonce data : List Nat)
    (hk : u.keys = some k) (hklen : k.CryptoKey.length = 32) :
    User.Encrypt g u nonce data =
      .ok (base64Encode (nonce ++ g.Seal k.CryptoKey data nonce data [])) := by
  simp [User.Encrypt, User.getEncryptionKey, hk, makeGCM, hklen]

/-- Sealed output consists of bytes when destination and plaintext do. -/
theorem seal_lt (g : GCMImpl) (key dst nonce pt ad : List Nat)
    (hd : ∀ b ∈ dst, b < 256) (hp : ∀ b ∈ pt, b < 256) :
    ∀ b ∈ g.Seal key dst nonce pt ad, b < 256 := by
  intro b hb
  rcases List.mem_append.1 hb with hb | hb
  · rcases List.mem_append.1 hb with hb | hb
    · exact hd b hb
    · exact g.enc_lt key nonce pt hp b hb
  · exact g.tag_lt key nonce _ ad b hb

/-- Length of sealed output: destination plus plaintext plus the 16-byte tag. -/
theorem seal_length (g : GCMImpl) (key dst nonce pt ad : List Nat) :
    (g.Seal key dst nonce pt ad).length = dst.length + pt.length + 16 := by
  simp [GCMImpl.Seal, g.enc_length, g.tag_length]
  omega

/-- Decrypting the output of `Encrypt` under the same key: because `Seal` was
given the plaintext slice as destination, `Open` authenticates `data ++ ct`
against the tag computed over `ct` alone; it either fails, or (should the tags
collide) returns the residual payload with the decryption appended — never the
original plaintext alone. -/
theorem decrypt_of_encrypt (g : GCMImpl) (u : User) (k : Keys) (nonce data : List Nat)
    (hk : u.keys = some k) (hklen : k.CryptoKey.length = 32)
    (hn : nonce.length = 12) (hnb : ∀ b ∈ nonce, b < 256) (hdb : ∀ b ∈ data, b < 256) :
    ∃ c, User.Encrypt g u nonce data = .ok c ∧
      (User.Decrypt g u c = .error ⟨"cipher message authentication failed"⟩ ∨
       User.Decrypt g u c = .ok (g.Seal k.CryptoKey data nonce data [] ++
         g.dec k.CryptoKey nonce (data ++ g.enc k.CryptoKey nonce data))) := by
  set key := k.CryptoKey with hkey
  set ct := g.enc key nonce data with hct
  set tg := g.tagOf key nonce ct [] with htg
  have hctlen : ct.length = data.length := g.enc_length key nonce data
  have htglen : tg.length = 16 := g.tag_length key nonce ct []
  have hseal : g.Seal key data nonce data [] = data ++ ct ++ tg := rfl
  refine ⟨base64Encode (nonce ++ g.Seal key data nonce data []), encrypt_eq g u k nonce data hk hklen, ?_⟩
  have h256 : ∀ b ∈ nonce ++ g.Seal key data nonce data [], b < 256 := by
    intro b hb
    rcases List.mem_append.1 hb with hb | hb
    · exact hnb b hb
    · exact seal_lt g key data nonce data [] hdb hdb b hb
  have hdec := base64Decode_encode _ h256
  have hlen : (nonce ++ g.Seal key data nonce data []).length =
      12 + (data.length + data.length + 16) := by
    simp [List.length_append, hn, seal_length]
  have hdrop : (nonce ++ g.Seal key data nonce data []).drop 12 =
      g.Seal key data nonce data [] := by
    rw [← hn]
    exact List.drop_left nonce _
  have htake : (nonce ++ g.Seal key data nonce data []).take 12 = nonce := by
    rw [← hn]
    exact List.take_left nonce _
  have hsl : (g.Seal key data nonce data []).length = data.length + data.length + 16 := by
    rw [seal_length]
  have h16 : (g.Seal key data nonce data []).length - 16 = (data ++ ct).length := by
    rw [hsl]
    simp [List.length_append, hctlen]
  have hbody : (g.Seal key data nonce data []).take
      ((g.Seal key data nonce data []).length - 16) = data ++ ct := by
    rw [h16, hseal]
    exact List.take_left _ _
  have htgdrop : (g.Seal key data nonce data []).drop
      ((g.Seal key data nonce data []).length - 16) = tg := by
    rw [h16, hseal]
    exact List.drop_left _ _
  simp only [User.Decrypt, hdec, User.getEncryptionKey, hk, makeGCM, hklen]
  norm_num
  have hc : ¬ (nonce.length + (g.Seal key data nonce data []).length < 12) := by
    rw [hn, hsl]
    omega
  rw [if_neg hc, hdrop, htake]
  have hc2 : ¬ ((g.Seal key data nonce data []).length < 16) := by
    rw [hsl]
    omega
  simp only [GCMImpl.Open, if_neg hc2, hbody, htgdrop]
  by_cases hcoll : g.tagOf key nonce (data ++ ct) [] = tg
  · simp [hcoll]
  · simp [hcoll]

/-- For every user with a 32-byte session key, 12-byte nonce and byte plaintext,
`Decrypt` applied to the output of `Encrypt` never returns the plaintext: the
destination-slice misuse in `gcm.Seal(data, nonce, data, nil)` makes `Open`
authenticate `data ++ ct` against a tag computed over `ct` alone, and even a tag
collision would return a strictly longer payload. -/
theorem decrypt_encrypt_never_plaintext (g : GCMImpl) (u : User) (k : Keys)
    (nonce data c : List Nat)
    (hk : u.keys = some k) (hklen : k.CryptoKey.length = 32)
    (hn : nonce.length = 12) (hnb : ∀ b ∈ nonce, b < 256) (hdb : ∀ b ∈ data, b < 256)
    (hc : User.Encrypt g u nonce data = .ok c) :
    User.Decrypt g u c ≠ .ok data := by
  obtain ⟨c2, hc2, hres⟩ := decrypt_of_encrypt g u k nonce data hk hklen hn hnb hdb
  have hcc : c2 = c := by
    rw [hc] at hc2
    exact (Except.ok.inj hc2).symm
  rw [← hcc]
  rcases hres with hres | hres
  · rw [hres]
    intro hcontra
    exact Except.noConfusion hcontra
  · rw [hres]
    intro hcontra
    have heq := (Except.ok.injEq _ _ ▸ hcontra : _)
    have hlen := congrArg List.length heq
    rw [List.length_append, seal_length, g.dec_length, List.length_append,
      g.enc_length] at hlen
    omega

/-- CLAIM C1 (status: code_bug).  Evaluation of the code at a failing input: for
the plaintext "hi" ([104, 105]) under a 32-byte session key, composing `Decrypt`
with `Encrypt` yields the residual `p ++ ct ++ tag ++ p` payload — here (with the
identity-keystream, constant-tag AEAD instance) a 24-byte list — and not the
plaintext `p` required by the claim
`User.Decrypt(User.Encrypt(p)) = p` for all `p`. -/
theorem claim_c1_roundtrip_fails_at_hi :
    (User.Encrypt toyGCM demoUserA demoNonce [104, 105] >>=
      User.Decrypt toyGCM demoUserA) =
      Except.ok ([104, 105, 104, 105] ++ List.replicate 16 0 ++ [104, 105, 104, 105]) ∧
    ([104, 105, 104, 105] ++ List.replicate 16 0 ++ [104, 105, 104, 105] : List Nat) ≠
      [104, 105] := by
  constructor
  · rfl
  · decide

/-- `makeSharedSecret` fails on every input: either the peer's stored key is not
base64, or — always, otherwise — the ASN.1 unmarshal into `ecdsa.PublicKey`
rejects the payload; the scalar-mult/SHA-512 tail is unreachable. -/
theorem makeSharedSecret_always_errors (cp : CryptoPrim) (u other : User) :
    ∃ e, u.makeSharedSecret cp other = .error e := by
  unfold User.makeSharedSecret asn1UnmarshalECDSAPubKey
  rcases base64Decode other.PublicKey with _ | raw
  · exact ⟨⟨"illegal base64 data"⟩, rfl⟩
  · exact ⟨⟨"asn1 structural error"⟩, rfl⟩

/-- `EncryptShared` can never produce output: the shared-secret derivation it
starts with fails on every input. -/
theorem encryptShared_always_errors (g : GCMImpl) (cp : CryptoPrim) (u other : User)
    (nonce data sign : List Nat) :
    ∃ e, User.EncryptShared g cp u other nonce data sign = .error e := by
  obtain ⟨e, he⟩ := makeSharedSecret_always_errors cp u other
  refine ⟨e, ?_⟩
  unfold User.EncryptShared
  rw [he]

/-- CLAIM C2 (status: corrected).  Amended statement: for every plaintext of
bytes and 12-byte nonce under an available 32-byte session key, the
base64-decoded output of `User.Encrypt` is exactly
`nonce ++ plaintext ++ ciphertext ++ tag` — the plaintext appears unencrypted
right after the nonce because `gcm.Seal` receives the plaintext slice as its
destination; `User.EncryptShared`, however, never produces output at all: the
shared-secret derivation it begins with unmarshals the peer key into
`ecdsa.PublicKey`, which `encoding/asn1` rejects on every input, so every call
returns an error before any encryption happens. -/
theorem claim_c2_encrypt_leaks_plaintext (g : GCMImpl) (cp : CryptoPrim)
    (u other : User) (k : Keys) (nonce data sign : List Nat)
    (hk : u.keys = some k) (hklen : k.CryptoKey.length = 32)
    (_hn : nonce.length = 12) (hnb : ∀ b ∈ nonce, b < 256) (hdb : ∀ b ∈ data, b < 256) :
    (∃ c, User.Encrypt g u nonce data = .ok c ∧
        base64Decode c =
          some (nonce ++ data ++ g.enc k.CryptoKey nonce data ++
            g.tagOf k.CryptoKey nonce (g.enc k.CryptoKey nonce data) [])) ∧
    (∃ e, User.EncryptShared g cp u other nonce data sign = .error e) := by
  constructor
  · refine ⟨_, encrypt_eq g u k nonce data hk hklen, ?_⟩
    have h256 : ∀ b ∈ nonce ++ g.Seal k.CryptoKey data nonce data [], b < 256 := by
      intro b hb
      rcases List.mem_append.1 hb with hb | hb
      · exact hnb b hb
      · exact seal_lt g k.CryptoKey data nonce data [] hdb hdb b hb
    rw [base64Decode_encode _ h256]
    simp [GCMImpl.Seal, List.append_assoc]
  · exact encryptShared_always_errors g cp u other nonce data sign

/-- Witness for C2 at a concrete input: the two demonstration users, plaintext
"hi" and the 0..11 nonce. -/
theorem claim_c2_encrypt_leaks_plaintext_witness :
    demoKey32.length = 32 ∧
    ((∃ c, User.Encrypt toyGCM demoUserA demoNonce [104, 105] = .ok c ∧
        base64Decode c =
          some (demoNonce ++ [104, 105] ++ toyGCM.enc demoKey32 demoNonce [104, 105] ++
            toyGCM.tagOf demoKey32 demoNonce (toyGCM.enc demoKey32 demoNonce [104, 105]) [])) ∧
    (∃ e, User.EncryptShared toyGCM toyCrypto demoUserA demoUserB demoNonce
        [104, 105] [1] = .error e)) :=
  ⟨by decide,
   claim_c2_encrypt_leaks_plaintext toyGCM toyCrypto demoUserA demoUserB
     ⟨demoKey32, 2⟩ demoNonce [104, 105] [1] rfl (by decide) (by decide) (by decide)
     (by decide)⟩

/-- Counterexample for C2 as stated: for a concrete pair of users with valid
derived keypairs, `EncryptShared` returns the asn1 structural error raised while
deriving the pairwise shared secret — it never produces output of the claimed
`nonce ++ p ++ ciphertext ++ tag` shape. -/
theorem claim_c2_counterexample :
    User.EncryptShared toyGCM toyCrypto demoUserA demoUserB demoNonce [104, 105]
      [1] = Except.error ⟨"asn1 structural error"⟩ := by
  rfl

/-- CLAIM C8 (confirmed).  With a session key present (32 bytes), `Decrypt`
returns an error — it is a total function, so the embedding has no panic — in
each of the three cases: input that is not valid base64, decoded payload shorter
than the 12-byte GCM nonce, and authentication-tag mismatch (which is what a
ciphertext produced under a different key or a tampered payload produces).  All
three produce the single `CoreError` kind of core/error.go. -/
theorem claim_c8_decrypt_error_paths (g : GCMImpl) (u : User) (k : Keys)
    (hk : u.keys = some k) (hklen : k.CryptoKey.length = 32) :
    (∀ s, base64Decode s = none → ∃ e, User.Decrypt g u s = .error e) ∧
    (∀ s raw, base64Decode s = some raw → raw.length < 12 →
      ∃ e, User.Decrypt g u s = .error e) ∧
    (∀ s raw, base64Decode s = some raw → 12 ≤ raw.length →
      g.tagOf k.CryptoKey (raw.take 12)
          ((raw.drop 12).take ((raw.drop 12).length - 16)) [] ≠
        (raw.drop 12).drop ((raw.drop 12).length - 16) →
      ∃ e, User.Decrypt g u s = .error e) := by
  refine ⟨?_, ?_, ?_⟩
  · intro s hs
    refine ⟨⟨"illegal base64 data"⟩, ?_⟩
    simp [User.Decrypt, hs]
  · intro s raw hs hlen
    refine ⟨⟨"Data too short"⟩, ?_⟩
    simp [User.Decrypt, hs, User.getEncryptionKey, hk, makeGCM, hklen, hlen]
  · intro s raw hs hlen htag
    have hmg : makeGCM k.CryptoKey = .ok k.CryptoKey := by
      simp [makeGCM, hklen]
    have hopen : GCMImpl.Open g k.CryptoKey (raw.drop 12) (raw.take 12)
        (raw.drop 12) [] = none := by
      unfold GCMImpl.Open
      by_cases hshort : (raw.drop 12).length < 16
      · rw [if_pos hshort]
      · rw [if_neg hshort]
        dsimp only
        rw [if_neg htag]
    refine ⟨⟨"cipher message authentication failed"⟩, ?_⟩
    simp only [User.Decrypt, hs, User.getEncryptionKey, hk, hmg,
      if_neg (show ¬ raw.length < 12 by omega), hopen]

/-- Witness for C8: the three error paths evaluated on concrete inputs — a
non-base64 byte, a 3-byte payload, and a 13-byte payload whose tag cannot
verify. -/
theorem claim_c8_decrypt_error_paths_witness :
    (∃ e, User.Decrypt toyGCM demoUserA [33] = .error e) ∧
    (∃ e, User.Decrypt toyGCM demoUserA (base64Encode [1, 2, 3]) = .error e) ∧
    (∃ e, User.Decrypt toyGCM demoUserA (base64Encode (List.range 13)) = .error e) :=
  ⟨(claim_c8_decrypt_error_paths toyGCM demoUserA ⟨demoKey32, 2⟩ rfl (by decide)).1
      [33] (by decide),
   (claim_c8_decrypt_error_paths toyGCM demoUserA ⟨demoKey32, 2⟩ rfl (by decide)).2.1
      (base64Encode [1, 2, 3]) [1, 2, 3] (by decide) (by decide),
   (claim_c8_decrypt_error_paths toyGCM demoUserA ⟨demoKey32, 2⟩ rfl (by decide)).2.2
      (base64Encode (List.range 13)) (List.range 13) (by decide) (by decide) (by decide)⟩

/-! ### The permission predicate -/

/-- Characterisation of the query scan in `Can`: it succeeds exactly when some
query character occurs in the granted string and every query character strictly
before the first such occurrence lies in the permission alphabet.  Requires the
granted string to be alphabet-only (which `Can` has already checked). -/
theorem canScan_iff (perms : List Nat) (hperms : ∀ c ∈ perms, c ∈ ValidPermissions) :
    ∀ q, canScan perms q = true ↔
      ∃ i, ∃ hi : i < q.length, q.get ⟨i, hi⟩ ∈ perms ∧
        ∀ c ∈ q.take i, c ∈ ValidPermissions := by
  intro q
  induction q with
  | nil =>
    simp [canScan]
  | cons p rest ih =>
    by_cases hvp : p ∈ ValidPermissions
    · by_cases hpp : p ∈ perms
      · have hstep : canScan perms (p :: rest) = true := by
          simp [canScan, hvp, hpp]
        rw [hstep]
        exact ⟨fun _ => ⟨0, by simp, by simpa using hpp, by simp⟩, fun _ => rfl⟩
      · have hstep : canScan perms (p :: rest) = canScan perms rest := by
          simp [canScan, hvp, hpp]
        rw [hstep, ih]
        constructor
        · rintro ⟨i, hi, hmem, hpre⟩
          refine ⟨i + 1, by simpa using Nat.succ_lt_succ hi, by simpa using hmem, ?_⟩
          intro c hc
          rcases List.mem_cons.1 (by simpa using hc) with hc2 | hc2
          · rw [hc2]
            exact hvp
          · exact hpre c hc2
        · rintro ⟨i, hi, hmem, hpre⟩
          cases i with
          | zero => exact absurd (by simpa using hmem) hpp
          | succ j =>
            refine ⟨j, by simpa using Nat.lt_of_succ_lt_succ hi, by simpa using hmem, ?_⟩
            intro c hc
            exact hpre c (by simp [hc])
    · have hfalse : canScan perms (p :: rest) = false := by
        simp [canScan, hvp]
      rw [hfalse]
      constructor
      · intro h
        exact Bool.noConfusion h
      · rintro ⟨i, hi, hmem, hpre⟩
        cases i with
        | zero => exact absurd (hperms _ (by simpa using hmem)) hvp
        | succ j => exact absurd (hpre p (by simp)) hvp

/-- On an entry whose permissions blob verifies, `Can` reduces to the granted-
string validity check, the star rule, and the query scan. -/
theorem can_unfold (cp : CryptoPrim) (q : List Nat) (entry : EntryView)
    (granted : List Nat)
    (hv : User.Verify cp entry.authority entry.Permissions = (true, granted, none)) :
    Can cp q entry =
      if granted.any (fun p => decide (p ∉ ValidPermissions)) then false
      else if q = [42] ∧ granted.length > 0 then true
      else canScan granted q := by
  unfold Can
  rw [hv]
  simp

/-- CLAIM C3 (confirmed).  For an entry whose `Permissions` blob verifies under
the authority's key with granted string `granted`: if `granted` contains any
character outside the alphabet then `Can` is false for every query; and — for
alphabet-only granted strings, the coherent scope since the first clause already
fixes the rest — `Can "*"` is true exactly when `granted` is non-empty. -/
theorem claim_c3_invalid_and_star (cp : CryptoPrim) (entry : EntryView)
    (granted : List Nat)
    (hv : User.Verify cp entry.authority entry.Permissions = (true, granted, none)) :
    ((∃ c ∈ granted, c ∉ ValidPermissions) → ∀ q, Can cp q entry = false) ∧
    ((∀ c ∈ granted, c ∈ ValidPermissions) →
      (Can cp [42] entry = true ↔ granted ≠ [])) := by
  constructor
  · rintro ⟨c, hc, hcv⟩ q
    rw [can_unfold cp q entry granted hv]
    have hany : granted.any (fun p => decide (p ∉ ValidPermissions)) = true :=
      List.any_eq_true.2 ⟨c, hc, by simpa using hcv⟩
    rw [hany]
    simp
  · intro hvalid
    have hany : granted.any (fun p => decide (p ∉ ValidPermissions)) = false := by
      rw [List.any_eq_false]
      intro c hc
      simpa using hvalid c hc
    rw [can_unfold cp [42] entry granted hv]
    simp only [hany]
    rcases hg : granted with _ | ⟨c, rest⟩
    · simp [canScan]
    · simp

/-- Witness for C3 on concrete entries: a verifying blob granting "x" makes
every query (including "*") fail, and "*" is granted on "r" but not on the
empty granted string. -/
theorem claim_c3_invalid_and_star_witness :
    Can toyCrypto [114] demoEntryX = false ∧
    Can toyCrypto [42] demoEntryX = false ∧
    Can toyCrypto [42] demoEntryR = true ∧
    Can toyCrypto [42] demoEntryEmpty = false := by
  refine ⟨(claim_c3_invalid_and_star toyCrypto demoEntryX [120] (by decide)).1
      (by decide) [114],
    (claim_c3_invalid_and_star toyCrypto demoEntryX [120] (by decide)).1
      (by decide) [42],
    ((claim_c3_invalid_and_star toyCrypto demoEntryR [114] (by decide)).2
      (by decide)).mpr (by decide), ?_⟩
  have h := (claim_c3_invalid_and_star toyCrypto demoEntryEmpty [] (by decide)).2
    (by decide)
  cases hb : Can toyCrypto [42] demoEntryEmpty
  · rfl
  · exact absurd (h.mp hb) (by simp)

/-- Counterexample for CLAIM C4 as stated: on a verifying entry granting exactly
"r" ([114]), the query "?r" ([63, 114]) shares the character "r" with the
granted string, is not "*", and the granted string is alphabet-only — yet `Can`
returns false, because the scan hits the invalid "?" before reaching "r". -/
theorem claim_c4_counterexample :
    Can toyCrypto [63, 114] demoEntryR = false ∧
    User.Verify toyCrypto demoUserB demoEntryR.Permissions = (true, [114], none) ∧
    (∀ c ∈ ([114] : List Nat), c ∈ ValidPermissions) ∧
    (114 ∈ ([63, 114] : List Nat) ∧ 114 ∈ ([114] : List Nat)) ∧
    ([63, 114] : List Nat) ≠ [42] := by
  decide

/-- CLAIM C4 (corrected).  Amended statement: on a verifying entry whose granted
string is alphabet-only, a query other than "*" succeeds iff some query
character occurs in the granted string AND every query character strictly before
the first such occurrence is itself in {r, w, d}; sharing a character is not
sufficient when an invalid character precedes the first match. -/
theorem claim_c4_or_semantics (cp : CryptoPrim) (entry : EntryView)
    (granted q : List Nat)
    (hv : User.Verify cp entry.authority entry.Permissions = (true, granted, none))
    (hvalid : ∀ c ∈ granted, c ∈ ValidPermissions)
    (hq : q ≠ [42]) :
    Can cp q entry = true ↔
      ∃ i, ∃ hi : i < q.length, q.get ⟨i, hi⟩ ∈ granted ∧
        ∀ c ∈ q.take i, c ∈ ValidPermissions := by
  rw [can_unfold cp q entry granted hv]
  have hany : granted.any (fun p => decide (p ∉ ValidPermissions)) = false := by
    rw [List.any_eq_false]
    intro c hc
    simpa using hvalid c hc
  rw [hany]
  have hstar : ¬ (q = [42] ∧ granted.length > 0) := fun hcontra => hq hcontra.1
  rw [if_neg (by simp)]
  rw [if_neg hstar]
  exact canScan_iff granted hvalid q

/-- Witness for C4 on a concrete entry: with granted string "r", the query "wr"
([119, 114]) succeeds — "r" occurs at index 1 and the preceding "w" is in the
alphabet. -/
theorem claim_c4_or_semantics_witness :
    Can toyCrypto [119, 114] demoEntryR = true :=
  (claim_c4_or_semantics toyCrypto demoEntryR [114] [119, 114] (by decide)
    (by decide) (by decide)).mpr
    ⟨1, by decide, by decide, by decide⟩

/-! ### Sign / Verify / shared secrets -/

/-- CLAIM C5 (confirmed).  For every byte string `data`, every user whose
session signing key is present and whose stored `PublicKey` encodes the matching
curve point, and every signing randomness `k`: `Sign` produces the base64 blob
of the DER signature followed by the data, and `Verify` on that blob returns
`valid = true`, recovers exactly `data`, and reports no error. -/
theorem claim_c5_verify_of_sign (cp : CryptoPrim) (u : User) (keys : Keys)
    (k : Nat) (data : List Nat)
    (hk : u.keys = some keys)
    (hpub : u.PublicKey = base64Encode (cp.asn1EncPub (cp.scalarBase keys.D)))
    (hsig256 : ∀ b ∈ cp.asn1EncSig (cp.ecdsaSign keys.D (cp.sha512 data) k), b < 256)
    (hdata256 : ∀ b ∈ data, b < 256)
    (hpub256 : ∀ b ∈ cp.asn1EncPub (cp.scalarBase keys.D), b < 256) :
    User.Sign cp u k data =
      .ok (base64Encode (cp.asn1EncSig (cp.ecdsaSign keys.D (cp.sha512 data) k) ++ data)) ∧
    User.Verify cp u
      (base64Encode (cp.asn1EncSig (cp.ecdsaSign keys.D (cp.sha512 data) k) ++ data)) =
      (true, data, none) := by
  constructor
  · simp [User.Sign, hk]
  · have h1 : base64Decode
        (base64Encode (cp.asn1EncSig (cp.ecdsaSign keys.D (cp.sha512 data) k) ++ data)) =
        some (cp.asn1EncSig (cp.ecdsaSign keys.D (cp.sha512 data) k) ++ data) := by
      refine base64Decode_encode _ ?_
      intro b hb
      rcases List.mem_append.1 hb with hb | hb
      · exact hsig256 b hb
      · exact hdata256 b hb
    have h2 : base64Decode u.PublicKey = some (cp.asn1EncPub (cp.scalarBase keys.D)) := by
      rw [hpub]
      exact base64Decode_encode _ hpub256
    have h3 : cp.asn1DecPub (cp.asn1EncPub (cp.scalarBase keys.D)) =
        some (cp.scalarBase keys.D, []) := by
      have h := cp.asn1DecPub_enc (cp.scalarBase keys.D) []
      rwa [List.append_nil] at h
    have h4 : cp.asn1DecSig
        (cp.asn1EncSig (cp.ecdsaSign keys.D (cp.sha512 data) k) ++ data) =
        some (cp.ecdsaSign keys.D (cp.sha512 data) k, data) :=
      cp.asn1DecSig_enc _ data
    simp only [User.Verify, h1, h2, h3, h4]
    rw [cp.ecdsaVerify_sign]

/-- Witness for C5: the demonstration user signs [7] with randomness 0 and
verifies the resulting blob. -/
theorem claim_c5_verify_of_sign_witness :
    User.Sign toyCrypto demoUserB 0 [7] =
      .ok (base64Encode (toyCrypto.asn1EncSig
        (toyCrypto.ecdsaSign 3 (toyCrypto.sha512 [7]) 0) ++ [7])) ∧
    User.Verify toyCrypto demoUserB
      (base64Encode (toyCrypto.asn1EncSig
        (toyCrypto.ecdsaSign 3 (toyCrypto.sha512 [7]) 0) ++ [7])) =
      (true, [7], none) :=
  claim_c5_verify_of_sign toyCrypto demoUserB ⟨demoKey32, 3⟩ 0 [7] rfl rfl
    (by decide) (by decide) (by decide)

/-- CLAIM C6 (confirmed).  `Verify` reports a non-nil error only when decoding
is malformed — bad base64 of the blob or of the stored public key, or a failed
ASN.1 parse of the key or of the leading signature element; on every well-formed
blob it returns the ECDSA verdict with a nil error, so an invalid-but-well-formed
signature yields `valid = false, err = nil`. -/
theorem claim_c6_verify_error_only_malformed (cp : CryptoPrim) (u : User)
    (s : List Nat) :
    ((User.Verify cp u s).2.2.isSome →
      base64Decode s = none ∨
      base64Decode u.PublicKey = none ∨
      (∃ rawKey, base64Decode u.PublicKey = some rawKey ∧
        cp.asn1DecPub rawKey = none) ∨
      (∃ raw, base64Decode s = some raw ∧ cp.asn1DecSig raw = none)) ∧
    (∀ raw rawKey key rest sig remaining,
      base64Decode s = some raw → base64Decode u.PublicKey = some rawKey →
      cp.asn1DecPub rawKey = some (key, rest) →
      cp.asn1DecSig raw = some (sig, remaining) →
      User.Verify cp u s = (cp.ecdsaVerify key (cp.sha512 remaining) sig,
        remaining, none)) := by
  constructor
  · intro hsome
    rcases h1 : base64Decode s with _ | raw
    · exact Or.inl rfl
    · rcases h2 : base64Decode u.PublicKey with _ | rawKey
      · exact Or.inr (Or.inl rfl)
      · rcases h3 : cp.asn1DecPub rawKey with _ | ⟨key, rest⟩
        · exact Or.inr (Or.inr (Or.inl ⟨rawKey, rfl, h3⟩))
        · rcases h4 : cp.asn1DecSig raw with _ | ⟨sig, remaining⟩
          · exact Or.inr (Or.inr (Or.inr ⟨raw, rfl, h4⟩))
          · simp only [User.Verify, h1, h2, h3, h4] at hsome
            simp at hsome
  · intro raw rawKey key rest sig remaining h1 h2 h3 h4
    simp only [User.Verify, h1, h2, h3, h4]

/-- Witness for C6: a well-formed blob whose toy signature (9, 9) does not match
the demonstration user's key — `Verify` returns `valid = false` with no error. -/
theorem claim_c6_verify_error_only_malformed_witness :
    User.Verify toyCrypto demoUserB (base64Encode [9, 9, 5]) =
      (toyCrypto.ecdsaVerify (3, 3) (toyCrypto.sha512 [5]) (9, 9), [5], none) ∧
    toyCrypto.ecdsaVerify (3, 3) (toyCrypto.sha512 [5]) (9, 9) = false :=
  ⟨(claim_c6_verify_error_only_malformed toyCrypto demoUserB
      (base64Encode [9, 9, 5])).2 [9, 9, 5] [3, 3] (3, 3) [] (9, 9) [5]
      (by decide) (by decide) (by decide) (by decide),
   by decide⟩

/-- CLAIM C7 (status: code_bug).  Evaluation of the code at a failing input: for
the two demonstration users — both holding valid derived keypairs, their stored
public keys the well-formed encodings of their own scalars' curve points —
`makeSharedSecret` returns the asn1 structural error in both directions, so no
pairwise shared secret is ever derived, symmetric or otherwise.  The cause is
the unmarshal of the peer key into `ecdsa.PublicKey`, whose embedded
`elliptic.Curve` interface field `encoding/asn1` does not support; the same
file avoids this on the marshal side (`updatePublicKey` goes through
`PublicSigningKeyNoCurve`) and on the verify side (`Verify` parses the
curve-free `SigningKey` struct), so the spec's symmetric stretched-ECDH secret
is the evident intent and the unmarshal target a slip.
`makeSharedSecret_always_errors` extends this to every input. -/
theorem claim_c7_shared_secret_never_derived :
    demoUserA.makeSharedSecret toyCrypto demoUserB =
      Except.error ⟨"asn1 structural error"⟩ ∧
    demoUserB.makeSharedSecret toyCrypto demoUserA =
      Except.error ⟨"asn1 structural error"⟩ := by
  constructor
  · rfl
  · rfl

/-! ### ChangeQueue dedup / RekeyCoordinator -/

/-- Lookup distributes over append, first list winning. -/
theorem lookupField_append (f : String) (l1 l2 : List (String × Nat)) :
    lookupField f (l1 ++ l2) =
      match lookupField f l1 with
      | some v => some v
      | none => lookupField f l2 := by
  induction l1 with
  | nil => simp [lookupField]
  | cons kv rest ih =>
    obtain ⟨k, v⟩ := kv
    by_cases hk : k = f
    · simp [lookupField, hk]
    · simp [lookupField, hk, ih]

/-- Filtering out entries whose key already occurs in `l1` does not change
lookups of keys absent from `l1`. -/
theorem lookupField_filter (f : String) (l1 l2 : List (String × Nat))
    (hf : lookupField f l1 = none) :
    lookupField f (l2.filter (fun kv => (lookupField kv.1 l1).isNone)) =
      lookupField f l2 := by
  induction l2 with
  | nil => simp
  | cons kv rest ih =>
    obtain ⟨k, v⟩ := kv
    by_cases hk : k = f
    · subst hk
      have hkeep : (lookupField k l1).isNone = true := by rw [hf]; rfl
      simp [List.filter_cons, hkeep, lookupField]
    · by_cases hkeep : (lookupField k l1).isNone = true
      · simp [List.filter_cons, hkeep, lookupField, hk, ih]
      · simp [List.filter_cons, hkeep, lookupField, hk, ih]

/-- Lookup in a merged field set: the newer set wins, the older fills in. -/
theorem lookupField_merge (f : String) (newer older : List (String × Nat)) :
    lookupField f (mergeFields newer older) =
      match lookupField f newer with
      | some v => some v
      | none => lookupField f older := by
  unfold mergeFields
  rw [lookupField_append]
  rcases hn : lookupField f newer with _ | v
  · simp only
    exact lookupField_filter f newer older hn
  · simp only

/-- CLAIM C9 (confirmed, spec-modelled).  Enqueueing two updates for the same
(entryId, recipientUserId) key into a mailbox with no pending envelope for that
key leaves exactly one envelope for the key, whose field set is the union of
both updates' fields with the newer value winning; replaying it applies the
union — a field changed only by the first update still receives its value — and
empties the mailbox. -/
theorem claim_c9_changequeue_dedup_union (mb : List Envelope) (e1 e2 : Envelope)
    (eid rid : Nat)
    (h1e : e1.entryId = eid) (h1r : e1.recipientUserId = rid)
    (h2e : e2.entryId = eid) (h2r : e2.recipientUserId = rid)
    (hmb : ∀ e ∈ mb, sameKey eid rid e = false) :
    ((enqueue e2 (enqueue e1 mb)).filter (sameKey eid rid) =
      [{ entryId := eid, recipientUserId := rid,
         fields := mergeFields e2.fields e1.fields }]) ∧
    (∀ view f, (replay rid (enqueue e2 (enqueue e1 [])) view).1 f =
      (match lookupField f e2.fields with
       | some v => some v
       | none =>
         match lookupField f e1.fields with
         | some v => some v
         | none => view f)) ∧
    (∀ view, (replay rid (enqueue e2 (enqueue e1 [])) view).2 = []) := by
  have hkey1 : sameKey eid rid e1 = true := by simp [sameKey, h1e, h1r]
  have hkey2 : sameKey e2.entryId e2.recipientUserId e1 = true := by
    simp [sameKey, h1e, h1r, h2e, h2r]
  have hmerged : sameKey eid rid
      (Envelope.mk e2.entryId e2.recipientUserId (mergeFields e2.fields e1.fields)) =
      true := by
    simp [sameKey, h2e, h2r]
  have hstep1 : enqueue e1 mb = mb ++ [e1] := by
    unfold enqueue
    have hany : mb.any (sameKey e1.entryId e1.recipientUserId) = false := by
      rw [List.any_eq_false]
      intro e he
      rw [h1e, h1r]
      simpa using hmb e he
    rw [hany]
    simp
  have hstep1nil : enqueue e1 [] = [e1] := by
    unfold enqueue
    simp
  have hstep2nil : enqueue e2 [e1] =
      [Envelope.mk e2.entryId e2.recipientUserId (mergeFields e2.fields e1.fields)] := by
    unfold enqueue
    have hany : List.any [e1] (sameKey e2.entryId e2.recipientUserId) = true := by
      simp [hkey2]
    rw [hany]
    simp [hkey2]
  have hmapself : ∀ l : List Envelope, (∀ e ∈ l, sameKey eid rid e = false) →
      l.map (fun e =>
        if sameKey e2.entryId e2.recipientUserId e then
          Envelope.mk e2.entryId e2.recipientUserId (mergeFields e2.fields e.fields)
        else e) = l := by
    intro l hl
    induction l with
    | nil => rfl
    | cons x xs ih =>
      have hx : sameKey e2.entryId e2.recipientUserId x = false := by
        rw [h2e, h2r]
        exact hl x (by simp)
      simp only [List.map_cons, hx, ih (fun e he => hl e (by simp [he]))]
      simp
  have hfmb : mb.filter (sameKey eid rid) = [] := by
    rw [List.filter_eq_nil_iff]
    intro e he
    rw [hmb e he]
    simp
  refine ⟨?_, ?_, ?_⟩
  · rw [hstep1]
    have hany : (mb ++ [e1]).any (sameKey e2.entryId e2.recipientUserId) = true := by
      rw [List.any_eq_true]
      exact ⟨e1, by simp, hkey2⟩
    unfold enqueue
    rw [hany, if_pos rfl, List.map_append, hmapself mb hmb, List.filter_append,
      hfmb]
    simp [hkey1, hkey2, hmerged, h1e, h1r, h2e, h2r, sameKey]
  · intro view f
    rw [hstep1nil, hstep2nil]
    unfold replay
    simp only [List.filter, h2r]
    norm_num
    simp only [List.foldl, applyEnvelope]
    rw [lookupField_merge]
    rcases lookupField f e2.fields with _ | v <;> simp
  · intro view
    rw [hstep1nil, hstep2nil]
    unfold replay
    simp [h2r]

/-- CLAIM C10 (confirmed, spec-modelled).  The password-change migration is
all-or-nothing: when every owned record is ciphertext under the cached key, the
migration succeeds, every resulting record decrypts under the new key and fails
to decrypt under the old one; and if any record fails to decrypt mid-migration
(a forced failure), the state is returned unchanged — every record still
decrypts under the original cached key. -/
theorem claim_c10_rekey_atomic (oldKey newKey : Nat) (records : List SymCiphertext)
    (hne : newKey ≠ oldKey) :
    ((∀ c ∈ records, c.key = oldKey) →
      rekey oldKey newKey records =
        (records.map (fun c => symEncrypt newKey c.plain), true) ∧
      ∀ c2 ∈ records.map (fun c => symEncrypt newKey c.plain),
        symDecrypt newKey c2 = .ok c2.plain ∧
        symDecrypt oldKey c2 = .error ⟨"decryption failed"⟩) ∧
    ((∃ c ∈ records, c.key ≠ oldKey) →
      rekey oldKey newKey records = (records, false) ∧
      ∀ c ∈ records, c.key = oldKey → symDecrypt oldKey c = .ok c.plain) := by
  constructor
  · intro hall
    have hmig : migrateAll oldKey newKey records =
        .ok (records.map (fun c => symEncrypt newKey c.plain)) := by
      induction records with
      | nil => rfl
      | cons c rest ih =>
        have hc : c.key = oldKey := hall c (by simp)
        have hrest := ih (fun x hx => hall x (by simp [hx]))
        simp only [migrateAll, migrateRecord, symDecrypt, hc, if_pos rfl, hrest]
        simp [symEncrypt]
    constructor
    · unfold rekey
      rw [hmig]
    · intro c2 hc2
      rw [List.mem_map] at hc2
      obtain ⟨c, _, hc⟩ := hc2
      rw [← hc]
      constructor
      · simp [symDecrypt, symEncrypt]
      · simp [symDecrypt, symEncrypt, hne]
  · intro hbad
    constructor
    · have hmig : ∃ e, migrateAll oldKey newKey records = .error e := by
        obtain ⟨c, hc, hck⟩ := hbad
        clear hne
        induction records with
        | nil => exact absurd hc (by simp)
        | cons c0 rest ih =>
          rcases List.mem_cons.1 hc with hc0 | hcr
          · subst hc0
            refine ⟨⟨"decryption failed"⟩, ?_⟩
            simp [migrateAll, migrateRecord, symDecrypt, hck]
          · by_cases hk0 : c0.key = oldKey
            · obtain ⟨e, he⟩ := ih hcr
              refine ⟨e, ?_⟩
              simp [migrateAll, migrateRecord, symDecrypt, hk0, he]
            · refine ⟨⟨"decryption failed"⟩, ?_⟩
              simp [migrateAll, migrateRecord, symDecrypt, hk0]
      obtain ⟨e, he⟩ := hmig
      unfold rekey
      rw [he]
    · intro c _  hck
      simp [symDecrypt, hck]

/-- Witness for C9: two updates to entry 1 for recipient 2, the first changing
"title", the second changing "username"; the mailbox holds one merged envelope
and replay applies both fields. -/
theorem claim_c9_changequeue_dedup_union_witness :
    ((enqueue ⟨1, 2, [("username", 20)]⟩ (enqueue ⟨1, 2, [("title", 10)]⟩ [])).filter
      (sameKey 1 2) =
      [⟨1, 2, [("username", 20), ("title", 10)]⟩]) ∧
    ((replay 2 (enqueue ⟨1, 2, [("username", 20)]⟩
        (enqueue ⟨1, 2, [("title", 10)]⟩ [])) (fun _ => none)).1 "title" = some 10) ∧
    ((replay 2 (enqueue ⟨1, 2, [("username", 20)]⟩
        (enqueue ⟨1, 2, [("title", 10)]⟩ [])) (fun _ => none)).1 "username" = some 20) ∧
    ((replay 2 (enqueue ⟨1, 2, [("username", 20)]⟩
        (enqueue ⟨1, 2, [("title", 10)]⟩ [])) (fun _ => none)).2 = []) := by
  have h := claim_c9_changequeue_dedup_union [] ⟨1, 2, [("title", 10)]⟩
    ⟨1, 2, [("username", 20)]⟩ 1 2 rfl rfl rfl rfl (by simp)
  refine ⟨h.1.trans (by decide), ?_, ?_, h.2.2 (fun _ => none)⟩
  · exact (h.2.1 (fun _ => none) "title").trans (by decide)
  · exact (h.2.1 (fun _ => none) "username").trans (by decide)

/-- Witness for C10: one record under the old key migrates; a mailbox containing
a record under a foreign key (the forced failure) rolls back unchanged. -/
theorem claim_c10_rekey_atomic_witness :
    rekey 1 2 [⟨1, 42⟩] = ([⟨2, 42⟩], true) ∧
    rekey 1 2 [⟨1, 42⟩, ⟨3, 7⟩] = ([⟨1, 42⟩, ⟨3, 7⟩], false) := by
  constructor
  · exact ((claim_c10_rekey_atomic 1 2 [⟨1, 42⟩] (by decide)).1
      (by decide)).1.trans (by decide)
  · exact ((claim_c10_rekey_atomic 1 2 [⟨1, 42⟩, ⟨3, 7⟩] (by decide)).2
      ⟨⟨3, 7⟩, by decide, by decide⟩).1

end Passrep
